import Mathlib

/-!
Verification development for the time utilities of aos_core_common_cpp
(src/utils/time.cpp): the duration parser (`ParseDuration` with its three
grammars) and the UTC timestamp codec (`FromUTCString` / `ToUTCString`).

The C++ code is shallowly embedded: strings are lists of characters,
`RetWithError` results become a discriminated outcome type, and a C++
exception escaping a function (std::stod / std::stoi / std::stoll throwing)
is modelled by a dedicated `thrown` outcome.  Machine integers are modelled
as `Int` (the nanosecond `Duration` is a signed 64-bit count in the C++
code; arithmetic overflow of the duration sum itself is not modelled, but
the out-of-range exceptions of the string-to-integer conversions are).
-/

/-- Error kinds of the aos `ErrorEnum` that this module produces. -/
inductive ErrKind where
  | eFailed
  | eInvalidArgument
deriving DecidableEq, Repr

/-- Outcome of a C++ function returning `RetWithError<Duration>`:
a successful duration (in nanoseconds), a returned error with its kind and
message, or a C++ exception escaping the function (`thrown`). -/
inductive DurOutcome where
  | ok (d : Int)
  | err (kind : ErrKind) (msg : String)
  | thrown (what : String)
deriving DecidableEq, Repr

/-!  Character/string helpers shared by the parsers.  -/

/-- Longest prefix of decimal digits, mirroring a greedy regex `\d+` / `\d*`:
returns the digit prefix and the remainder. -/
def spanDigits : List Char → List Char × List Char
  | [] => ([], [])
  | c :: cs =>
      if c.isDigit then (c :: (spanDigits cs).1, (spanDigits cs).2)
      else ([], c :: cs)

/-- Numeric value of a list of decimal digit characters (most significant
first), as computed by std::stoi / std::stoll / strtol on a digit string. -/
def digitsVal (ds : List Char) : Nat :=
  ds.foldl (fun a c => 10 * a + (c.toNat - 48)) 0

/-!  The unit-suffixed duration grammar of `ParseStringDuration`.

The C++ gate regex is `(\d+(ns|us|µs|ms|s|m|h|d|w|y))+$` used with
`std::regex_match`, and `ParseStringDuration` then re-scans the string with
the same token pattern and sums `units.at(unit) * std::stoll(digits)`.
The alternation is deterministic on any accepted string: after the digits,
a two-character symbol (`ns`, `us`, `µs`, `ms`) applies whenever its two
characters are present (the ECMAScript alternation tries it before the
one-character symbols, and choosing the one-character symbol instead would
leave a letter where the next token requires a digit), so the greedy
tokenizer below decides exactly the language of the regex. -/

/-- Recognised duration unit symbols (`µs` is the two-character micro sign
spelling; `us` is the ASCII spelling). -/
inductive DUnit where
  | ns | us | mus | ms | s | m | h | d | w | y
deriving DecidableEq, Repr

/-- Unit symbol lookup in alternation order `ns|us|µs|ms|s|m|h|d|w|y`. -/
def matchUnit : List Char → Option (DUnit × List Char)
  | 'n' :: 's' :: r => some (.ns, r)
  | 'u' :: 's' :: r => some (.us, r)
  | 'µ' :: 's' :: r => some (.mus, r)
  | 'm' :: 's' :: r => some (.ms, r)
  | 's' :: r => some (.s, r)
  | 'm' :: r => some (.m, r)
  | 'h' :: r => some (.h, r)
  | 'd' :: r => some (.d, r)
  | 'w' :: r => some (.w, r)
  | 'y' :: r => some (.y, r)
  | _ => none

/-- Fuelled tokenizer: splits the string into `(digits, unit)` tokens
covering it entirely, or fails.  The fuel is an upper bound on the number
of tokens; each token consumes at least two characters, so `s.length`
always suffices. -/
def tokenizeGo : Nat → List Char → Option (List (Nat × DUnit))
  | _, [] => some []
  | 0, _ :: _ => none
  | fuel + 1, c :: cs =>
      if (spanDigits (c :: cs)).1 = [] then none
      else
        match matchUnit (spanDigits (c :: cs)).2 with
        | none => none
        | some (u, r2) =>
            match tokenizeGo fuel r2 with
            | none => none
            | some ts => some ((digitsVal (spanDigits (c :: cs)).1, u) :: ts)

/-- Tokenization of a string into `(integer, unit)` tokens; `some ts` iff
the string is a concatenation of `\d+`·unit tokens (`some []` on the empty
string). -/
def tokenize (s : List Char) : Option (List (Nat × DUnit)) :=
  tokenizeGo s.length s

/-- Whether the whole string matches the gate regex
`(\d+(ns|us|µs|ms|s|m|h|d|w|y))+$` of `ParseDuration` (at least one token,
covering the string). -/
def unitMatch (s : List Char) : Bool :=
  match tokenize s with
  | some (_ :: _) => true
  | _ => false

/-!  Duration unit constants.

Modelled from the spec: the `Time::c...` constants come from the aos core
library, which is not part of this repository's sources.  Per the spec's
data model a `Duration` is a signed count of nanoseconds, so the second is
10^9 nanoseconds and minutes/hours/days/weeks are the exact multiples; the
month constant is the fixed 30-day approximation (spec §3 `MonthConstant`)
and the year a fixed 365-day constant.  No claim depends on the numeric
value of the month or year constant. -/

/-- One nanosecond. -/
def cNanoseconds : Int := 1

/-- One microsecond in nanoseconds. -/
def cMicroseconds : Int := 1000

/-- One millisecond in nanoseconds. -/
def cMilliseconds : Int := 1000000

/-- One second in nanoseconds. -/
def cSeconds : Int := 1000000000

/-- One minute in nanoseconds. -/
def cMinutes : Int := 60 * cSeconds

/-- One hour in nanoseconds. -/
def cHours : Int := 60 * cMinutes

/-- One day in nanoseconds. -/
def cDay : Int := 24 * cHours

/-- One week in nanoseconds. -/
def cWeek : Int := 7 * cDay

/-- Month constant of the standard-duration grammar (30 days). -/
def cMonth : Int := 30 * cDay

/-- Year constant (365 days). -/
def cYear : Int := 365 * cDay

/-- Value of the static `units` table of `ParseStringDuration`. -/
def unitDur : DUnit → Int
  | .ns => cNanoseconds
  | .us => cMicroseconds
  | .mus => cMicroseconds
  | .ms => cMilliseconds
  | .s => cSeconds
  | .m => cMinutes
  | .h => cHours
  | .d => cDay
  | .w => cWeek
  | .y => cYear

/-- Largest value convertible by std::stoll (LLONG_MAX); a larger integer
token makes std::stoll throw std::out_of_range. -/
def stollMax : Nat := 9223372036854775807

/-- Largest value convertible by std::stoi (INT_MAX); a larger component
makes std::stoi throw std::out_of_range. -/
def stoiMax : Nat := 2147483647

/-- Sum of `integer × UnitTable[unit]` over a token list. -/
def sumTokens (ts : List (Nat × DUnit)) : Int :=
  (ts.map (fun t => (t.1 : Int) * unitDur t.2)).sum

/-- Embedding of the static `ParseStringDuration` of src/utils/time.cpp: it
re-scans the (already gate-matched) string with the token pattern and sums
`units.at(unit) * std::stoll(digits)`.  An oversized integer token makes
std::stoll throw.  The `none` branch (string not a token concatenation) is
unreachable from `ParseDuration`, which calls this only after the gate
regex matched; the scan then finds no token and returns a zero duration. -/
def ParseStringDuration (s : List Char) : DurOutcome :=
  match tokenize s with
  | some ts =>
      if ts.all (fun t => t.1 ≤ stollMax) then .ok (sumTokens ts)
      else .thrown ("stoll out_of_range")
  | none => .ok 0

/-!  The numeric-seconds grammar.

The C++ code matches the whole string against `^-?\d*(\.\d+)?$` and, on a
match, returns `Time::cSeconds * static_cast<int>(std::stod(s) + 0.5)`.
The model parses the matched string into (sign, integer digits, fraction
digits).  Two aspects of this branch are exact in the model: the regex
language, and the failure case — on a matched string containing no digit
at all (the string consisting of a bare minus sign) std::stod finds no
conversion and throws std::invalid_argument.  The SUCCESS value of this
branch, by contrast, is an idealization: std::stod rounds to the nearest
IEEE-754 binary64 double (so e.g. a 17-digit fraction just below one half
becomes exactly one half) and the int cast has undefined behaviour outside
the int range, whereas the model computes the exact decimal value as a
rational and truncates it as an unbounded integer.  No theorem in this
development relies on the numeric value the success case returns; only
the rejection and exception behaviour of this branch is used. -/

/-- Matcher for the unsigned part `\d*(\.\d+)?$` of the float regex:
integer digits, then an optional dot with one or more fraction digits,
covering the rest of the string. -/
def floatTail (neg : Bool) (s1 : List Char) : Option (Bool × List Char × List Char) :=
  match (spanDigits s1).2 with
  | [] => some (neg, (spanDigits s1).1, [])
  | '.' :: s3 =>
      if (spanDigits s3).1 ≠ [] ∧ (spanDigits s3).2 = [] then
        some (neg, (spanDigits s1).1, (spanDigits s3).1)
      else none
  | _ => none

/-- Matcher for the regex `^-?\d*(\.\d+)?$`: returns the sign, the integer
digits and the fraction digits when the whole string matches. -/
def floatParse (s : List Char) : Option (Bool × List Char × List Char) :=
  match s with
  | '-' :: r => floatTail true r
  | _ => floatTail false s

/-- Exact decimal value of a sign / integer-digits / fraction-digits
triple (an idealization of std::stod, which rounds this value to the
nearest binary64 double; see the section comment — the value is not
relied on by any theorem below). -/
def floatVal (neg : Bool) (ip fp : List Char) : ℚ :=
  (if neg then -1 else 1) *
    ((digitsVal ip : ℚ) + (digitsVal fp : ℚ) / (10 : ℚ) ^ fp.length)

/-- Result of std::stod on a string matched by the float regex: `none`
(std::invalid_argument) when the string has no digit — this case is
exact — otherwise the idealized exact decimal value. -/
def stodVal (neg : Bool) (ip fp : List Char) : Option ℚ :=
  if ip = [] ∧ fp = [] then none else some (floatVal neg ip fp)

/-- C++ `static_cast<int>` of `q + 0.5`: truncation toward zero of the
biased value, idealized to an unbounded integer (the cast in the source
has undefined behaviour outside the int range; the value is not relied on
by any theorem below). -/
def truncHalf (q : ℚ) : Int :=
  if 0 ≤ q + 1 / 2 then (q + 1 / 2).floor else (q + 1 / 2).ceil

/-!  The standard-duration (ISO 8601 style) grammar.

The outer regex of `ParseISO8601Duration` is
`^(-?P(?:\d+Y)?(?:\d+M)?(?:\d+W)?(?:\d+D)?)?(T(?:\d+H)?(?:\d+M)?(?:\d+S)?)?$`
with `std::regex_match`; group 1 (the period, including the optional sign)
and group 2 (the time, including the `T`) are then re-parsed by
`ParseISO8601DurationPeriod` / `ParseISO8601DurationTime`, whose own
regexes necessarily match, and each captured integer goes through
std::stoi.  Each optional component is `\d+` followed by a fixed marker
letter; on any string the greedy left-to-right attempt below is the unique
possible regex match, since skipping a matchable component leaves digits
that nothing later can consume. -/

/-- Matcher for one optional component `(?:(\d+)X)?` with marker letter
`marker`: greedy digits followed by the marker, or no progress. -/
def parseComp (marker : Char) (s : List Char) : Option Nat × List Char :=
  match (spanDigits s).2 with
  | c :: r2 =>
      if c = marker ∧ (spanDigits s).1 ≠ [] then (some (digitsVal (spanDigits s).1), r2)
      else (none, s)
  | [] => (none, s)

/-- Period components `(?:(\d+)Y)?(?:(\d+)M)?(?:(\d+)W)?(?:(\d+)D)?`. -/
def parsePeriodBody (s : List Char) :
    (Option Nat × Option Nat × Option Nat × Option Nat) × List Char :=
  let p1 := parseComp 'Y' s
  let p2 := parseComp 'M' p1.2
  let p3 := parseComp 'W' p2.2
  let p4 := parseComp 'D' p3.2
  ((p1.1, p2.1, p3.1, p4.1), p4.2)

/-- Time components `(?:(\d+)H)?(?:(\d+)M)?(?:(\d+)S)?`. -/
def parseTimeBody (s : List Char) :
    (Option Nat × Option Nat × Option Nat) × List Char :=
  let p1 := parseComp 'H' s
  let p2 := parseComp 'M' p1.2
  let p3 := parseComp 'S' p2.2
  ((p1.1, p2.1, p3.1), p3.2)

/-- Result of matching the optional period group `(-?P...)?` at the start
of the string: the four captured components and the remainder. -/
def isoPeriodPart (s : List Char) :
    (Option Nat × Option Nat × Option Nat × Option Nat) × List Char :=
  match s with
  | '-' :: 'P' :: r => parsePeriodBody r
  | 'P' :: r => parsePeriodBody r
  | _ => ((none, none, none, none), s)

/-- Result of matching the optional time group `(T...)?`: the three
captured components and the remainder. -/
def isoTimePart (s : List Char) :
    (Option Nat × Option Nat × Option Nat) × List Char :=
  match s with
  | 'T' :: r => parseTimeBody r
  | _ => ((none, none, none), s)

/-- Embedding of the full-string match of the outer ISO-duration regex:
`some` of the captured components when the whole string matches
`[-P period][T time]` with both groups optional, `none` otherwise. -/
def isoSplit (s : List Char) :
    Option ((Option Nat × Option Nat × Option Nat × Option Nat) ×
      (Option Nat × Option Nat × Option Nat)) :=
  if (isoTimePart (isoPeriodPart s).2).2 = [] then
    some ((isoPeriodPart s).1, (isoTimePart (isoPeriodPart s).2).1)
  else none

/-- Contribution of one optional captured component: `integer × constant`,
zero when absent. -/
def compVal (c : Option Nat) (unit : Int) : Int :=
  match c with
  | some n => (n : Int) * unit
  | none => 0

/-- Whether an optional captured component overflows std::stoi. -/
def compOverflows (c : Option Nat) : Bool :=
  match c with
  | some n => decide (stoiMax < n)
  | none => false

/-- Embedding of `ParseISO8601Duration` of src/utils/time.cpp (together
with its helpers `ParseISO8601DurationPeriod` / `ParseISO8601DurationTime`,
whose regexes always match the captured groups): a failed outer match
returns `eInvalidArgument`, an oversized captured integer makes std::stoi
throw, otherwise the component contributions are summed and the total is
negated when the string starts with a minus sign (`duration[0] == '-'`). -/
def ParseISO8601Duration (s : List Char) : DurOutcome :=
  match isoSplit s with
  | none => .err .eInvalidArgument ("invalid ISO8601 duration format")
  | some ((y, mo, w, d), (h, mi, se)) =>
      if compOverflows y ∨ compOverflows mo ∨ compOverflows w ∨ compOverflows d ∨
          compOverflows h ∨ compOverflows mi ∨ compOverflows se then
        .thrown ("stoi out_of_range")
      else
        let total := compVal y cYear + compVal mo cMonth + compVal w cWeek +
          compVal d cDay + compVal h cHours + compVal mi cMinutes + compVal se cSeconds
        .ok (if s.head? = some '-' then -total else total)

/-- Whether the string contains the two-character substring `-P`
(`durationStr.find("-P") != std::string::npos`). -/
def containsDashP : List Char → Bool
  | [] => false
  | c :: cs => (c = '-' && cs.head? = some 'P') || containsDashP cs

/-- Embedding of the public `ParseDuration` of src/utils/time.cpp: empty
input fails with `eFailed`; a string starting with `P` or containing `-P`
is routed to the standard-duration grammar; a full-string match of
`^-?\d*(\.\d+)?$` is routed to the numeric-seconds conversion (std::stod
plus add-0.5-and-truncate, with std::stod throwing on a digitless match);
a full-string match of the unit-token regex is routed to
`ParseStringDuration`; anything else fails with `eInvalidArgument`. -/
def ParseDuration (s : List Char) : DurOutcome :=
  if s.isEmpty then .err .eFailed ("empty duration string")
  else if s.head? = some 'P' ∨ containsDashP s then ParseISO8601Duration s
  else
    match floatParse s with
    | some (neg, ip, fp) =>
        match stodVal neg ip fp with
        | none => .thrown ("stod invalid_argument")
        | some q => .ok (cSeconds * truncHalf q)
    | none =>
        if unitMatch s then ParseStringDuration s
        else .err .eInvalidArgument ("invalid duration string")

/-!  The UTC timestamp codec (`FromUTCString` / `ToUTCString`).

The C++ code works through the C library: `strptime` with the pattern
`%Y-%m-%dT%H:%M:%SZ`, `mktime` (local-zone interpretation of broken-down
fields), `localtime_r` (local-zone broken-down fields of an instant),
`timegm` (UTC interpretation) and `gmtime_r` / `strftime`.

Modelled from the spec: the C library calendar primitives are not part of
this repository's sources.  They are modelled over a time-zone
configuration reduced to a fixed offset `o` in seconds east of UTC (the
spec's zone scenarios, e.g. UTC+1 / UTC-1, are fixed-offset zones without
daylight saving):
  - broken-down UTC fields of an instant are computed by the standard
    proleptic-Gregorian civil-from-days algorithm,
  - `timegm` is days-from-civil plus the seconds of day (it also linearly
    normalizes out-of-range fields, as glibc does),
  - `localtime_r t = gmtime (t + o)` and `mktime tm = timegm tm - o`,
  - `strftime` zero-pads each field to its fixed width (years 1000..9999
    print identically on every platform),
  - `strptime` reads greedy bounded-width digit runs with glibc's range
    checks (year 0..9999, month 1..12, day 1..31, hour 0..23, minute
    0..59, second 0..61) and returns the unconsumed remainder; the C++
    caller only checks the result for NULL, so trailing characters after
    the pattern are ignored.
All integer divisions below are euclidean; where the C
algorithms use truncating division the operand is non-negative or the
expression is the standard floor-division idiom, so the values agree. -/

/-- Civil date (year, month 1..12, day 1..31) from a count of days since
1970-01-01, by the standard proleptic-Gregorian algorithm. -/
def civilFromDays (z : Int) : Int × Int × Int :=
  let z' := z + 719468
  let era := z' / 146097
  let doe := z' - era * 146097
  let yoe := (doe - doe / 1460 + doe / 36524 - doe / 146096) / 365
  let y := yoe + era * 400
  let doy := doe - (365 * yoe + yoe / 4 - yoe / 100)
  let mp := (5 * doy + 2) / 153
  let d := doy - (153 * mp + 2) / 5 + 1
  let m := mp + (if mp < 10 then 3 else -9)
  (y + (if m ≤ 2 then 1 else 0), m, d)

/-- Count of days since 1970-01-01 of a civil date (the inverse of
`civilFromDays`; on out-of-range day-of-month values it extrapolates
linearly, exactly as the normalizing C conversions do). -/
def daysFromCivil (y m d : Int) : Int :=
  let y' := y - (if m ≤ 2 then 1 else 0)
  let era := y' / 400
  let yoe := y' - era * 400
  let doy := (153 * (m + (if 2 < m then -3 else 9)) + 2) / 5 + d - 1
  let doe := yoe * 365 + yoe / 4 - yoe / 100 + doy
  era * 146097 + doe - 719468

/-- Broken-down time as filled by gmtime/localtime and consumed by
timegm/mktime (field names follow struct tm, with full year and 1-based
month). -/
structure Tm where
  year : Int
  month : Int
  day : Int
  hour : Int
  minute : Int
  second : Int
deriving DecidableEq, Repr

/-- Model of gmtime_r: broken-down UTC fields of an epoch instant. -/
def gmtimeModel (t : Int) : Tm :=
  let sod := t % 86400
  let c := civilFromDays (t / 86400)
  ⟨c.1, c.2.1, c.2.2, sod / 3600, (sod % 3600) / 60, sod % 60⟩

/-- Model of timegm: epoch instant of broken-down fields interpreted as
UTC (with linear normalization of out-of-range fields). -/
def timegmModel (tm : Tm) : Int :=
  daysFromCivil tm.year tm.month tm.day * 86400 +
    tm.hour * 3600 + tm.minute * 60 + tm.second

/-- Model of localtime_r under a fixed-offset zone (`o` seconds east of
UTC): the local broken-down fields of an instant. -/
def localtimeModel (o t : Int) : Tm :=
  gmtimeModel (t + o)

/-- Model of mktime under a fixed-offset zone: epoch instant of
broken-down fields interpreted in the local zone. -/
def mktimeModel (o : Int) (tm : Tm) : Int :=
  timegmModel tm - o

/-- Digit character for `k % 10`. -/
def dchar (k : Nat) : Char :=
  Char.ofNat (48 + k % 10)

/-- Two-digit zero-padded decimal rendering (strftime `%m`, `%d`, `%H`,
`%M`, `%S`). -/
def pad2 (n : Nat) : List Char :=
  [dchar (n / 10), dchar n]

/-- Four-digit zero-padded decimal rendering (strftime `%Y` for years
1000..9999). -/
def pad4 (n : Nat) : List Char :=
  [dchar (n / 1000), dchar (n / 100), dchar (n / 10), dchar n]

/-- Model of strftime with the pattern `%Y-%m-%dT%H:%M:%SZ`. -/
def formatTm (tm : Tm) : List Char :=
  pad4 tm.year.toNat ++ '-' :: pad2 tm.month.toNat ++ '-' :: pad2 tm.day.toNat ++
    'T' :: pad2 tm.hour.toNat ++ ':' :: pad2 tm.minute.toNat ++
    ':' :: pad2 tm.second.toNat ++ ['Z']

/-- Greedy bounded-width digit run (glibc strptime `get_number`): consume
at most `w` leading digits. -/
def takeDigits : Nat → List Char → List Char × List Char
  | 0, s => ([], s)
  | _, [] => ([], [])
  | w + 1, c :: cs =>
      if c.isDigit then
        ((c :: (takeDigits w cs).1), (takeDigits w cs).2)
      else ([], c :: cs)

/-- Model of glibc strptime's numeric field parse: a greedy digit run of
width at most `w`, with the value required to lie in `lo..hi`. -/
def getNumber (lo hi w : Nat) (s : List Char) : Option (Nat × List Char) :=
  if (takeDigits w s).1 = [] then none
  else
    if lo ≤ digitsVal (takeDigits w s).1 ∧ digitsVal (takeDigits w s).1 ≤ hi then
      some (digitsVal (takeDigits w s).1, (takeDigits w s).2)
    else none

/-- Literal character match in a strptime pattern. -/
def expectChar (c : Char) (s : List Char) : Option (List Char) :=
  match s with
  | c2 :: r => if c2 = c then some r else none
  | [] => none

/-- Model of strptime with the pattern `%Y-%m-%dT%H:%M:%SZ`: the parsed
broken-down fields and the unconsumed remainder of the input. -/
def strptimeModel (s : List Char) : Option (Tm × List Char) := do
  let (y, s) ← getNumber 0 9999 4 s
  let s ← expectChar '-' s
  let (mo, s) ← getNumber 1 12 2 s
  let s ← expectChar '-' s
  let (d, s) ← getNumber 1 31 2 s
  let s ← expectChar 'T' s
  let (h, s) ← getNumber 0 23 2 s
  let s ← expectChar ':' s
  let (mi, s) ← getNumber 0 59 2 s
  let s ← expectChar ':' s
  let (se, s) ← getNumber 0 61 2 s
  let s ← expectChar 'Z' s
  some (⟨(y : Int), (mo : Int), (d : Int), (h : Int), (mi : Int), (se : Int)⟩, s)

/-- Outcome of a C++ function returning `RetWithError<Time>`: an epoch
instant in seconds, or an error kind. -/
inductive TimeOutcome where
  | ok (t : Int)
  | err (kind : ErrKind)
deriving DecidableEq, Repr

/-- Embedding of `FromUTCString` of src/utils/time.cpp under a
fixed-offset zone `o`: strptime the fixed pattern from a prefix of the
input (returning `eInvalidArgument` on a failed match, ignoring any
unconsumed suffix) and convert the fields with mktime, i.e. interpreted in
the local zone. -/
def FromUTCString (o : Int) (s : List Char) : TimeOutcome :=
  match strptimeModel s with
  | none => .err .eInvalidArgument
  | some (tm, _) => .ok (mktimeModel o tm)

/-- Embedding of `ToUTCString` of src/utils/time.cpp under a fixed-offset
zone `o`: the instant is passed through `timegm (localtime_r t)` (which
shifts it by the zone offset), then rendered from its UTC broken-down
fields.  The failure branches of the C++ code (gmtime_r returning NULL,
strftime returning 0) cannot occur for the year range the claims quantify
over, so the model returns the string directly. -/
def ToUTCString (o t : Int) : List Char :=
  formatTm (gmtimeModel (timegmModel (localtimeModel o t)))

/-!  Inversion of the civil calendar conversion.  -/

set_option maxHeartbeats 4000000 in
/-- Core year-of-era fact behind `civilFromDays`: the computed year index
lies in `0..399` and its day prefix sum brackets the day of era. -/
lemma yoeCore (a b : Int) (h1 : 0 ≤ a) (h2 : a ≤ 146096)
    (hb : b = (a - a / 1460 + a / 36524 - a / 146096) / 365) :
    0 ≤ b ∧ b ≤ 399 ∧ 365 * b + b / 4 - b / 100 ≤ a ∧
      a - (365 * b + b / 4 - b / 100) ≤ 365 := by
  have hb1 : 0 ≤ b := by omega
  have hb2 : b ≤ 399 := by omega
  have hlow : 365 * b ≤ a - a / 1460 + a / 36524 - a / 146096 := by omega
  have hhigh : a - a / 1460 + a / 36524 - a / 146096 ≤ 365 * b + 364 := by omega
  clear hb
  have h4 : b % 4 = 0 ∨ b % 4 = 1 ∨ b % 4 = 2 ∨ b % 4 = 3 := by omega
  have h100 : b / 100 = 0 ∨ b / 100 = 1 ∨ b / 100 = 2 ∨ b / 100 = 3 := by omega
  refine ⟨hb1, hb2, ?_⟩
  rcases h4 with h4 | h4 | h4 | h4 <;> rcases h100 with h100 | h100 | h100 | h100 <;> omega

set_option maxHeartbeats 4000000 in
/-- Left inverse of the civil conversion: converting a day count to a
civil date and back is the identity. -/
lemma daysFromCivil_civilFromDays (z : Int) :
    daysFromCivil (civilFromDays z).1 (civilFromDays z).2.1 (civilFromDays z).2.2 = z := by
  unfold daysFromCivil civilFromDays
  dsimp only
  set z' := z + 719468 with hz'
  set era := z' / 146097 with hera
  set doe := z' - era * 146097 with hdoe
  have hdoe1 : 0 ≤ doe := by omega
  have hdoe2 : doe ≤ 146096 := by omega
  set yoe := (doe - doe / 1460 + doe / 36524 - doe / 146096) / 365 with hyoe
  obtain ⟨hy1, hy2, hy3, hy4⟩ := yoeCore doe yoe hdoe1 hdoe2 hyoe
  set doy := doe - (365 * yoe + yoe / 4 - yoe / 100) with hdoy
  set mp := (5 * doy + 2) / 153 with hmp
  have hmp1 : 0 ≤ mp ∧ mp ≤ 11 := by omega
  simp only [add_sub_cancel_right]
  have hk : (yoe + era * 400) / 400 = era := by omega
  rw [hk]
  simp only [add_sub_cancel_right]
  split_ifs <;>
    (try simp only [add_neg_cancel_right, neg_add_cancel_right]) <;> omega

set_option maxHeartbeats 4000000 in
/-- Field ranges of the civil conversion: the month is in `1..12` and the
day in `1..31`. -/
lemma civilFromDays_ranges (z : Int) :
    1 ≤ (civilFromDays z).2.1 ∧ (civilFromDays z).2.1 ≤ 12 ∧
      1 ≤ (civilFromDays z).2.2 ∧ (civilFromDays z).2.2 ≤ 31 := by
  unfold civilFromDays
  dsimp only
  set z' := z + 719468 with hz'
  set era := z' / 146097 with hera
  set doe := z' - era * 146097 with hdoe
  have hdoe1 : 0 ≤ doe := by omega
  have hdoe2 : doe ≤ 146096 := by omega
  set yoe := (doe - doe / 1460 + doe / 36524 - doe / 146096) / 365 with hyoe
  obtain ⟨hy1, hy2, hy3, hy4⟩ := yoeCore doe yoe hdoe1 hdoe2 hyoe
  set doy := doe - (365 * yoe + yoe / 4 - yoe / 100) with hdoy
  set mp := (5 * doy + 2) / 153 with hmp
  have hmp1 : 0 ≤ mp ∧ mp ≤ 11 := by omega
  split_ifs <;> omega

/-- Composing the broken-down UTC fields with the UTC re-interpretation is
the identity on epoch instants. -/
lemma timegmModel_gmtimeModel (x : Int) : timegmModel (gmtimeModel x) = x := by
  unfold timegmModel gmtimeModel
  dsimp only
  rw [daysFromCivil_civilFromDays]
  omega


/-!  Formatting and parsing of the fixed timestamp pattern.  -/

/-- Digit characters render as ASCII digits. -/
lemma dchar_isDigit (k : Nat) : (dchar k).isDigit = true := by
  unfold dchar
  have h : k % 10 < 10 := Nat.mod_lt _ (by norm_num)
  set m := k % 10 with hm
  interval_cases m <;> decide

lemma dchar_toNat (k : Nat) : (dchar k).toNat = 48 + k % 10 := by
  unfold dchar
  have h : k % 10 < 10 := Nat.mod_lt _ (by norm_num)
  set m := k % 10 with hm
  interval_cases m <;> decide

lemma takeDigits_pad2 (n : Nat) (rest : List Char) :
    takeDigits 2 (pad2 n ++ rest) = (pad2 n, rest) := by
  simp [pad2, takeDigits, dchar_isDigit]

lemma takeDigits_pad4 (n : Nat) (rest : List Char) :
    takeDigits 4 (pad4 n ++ rest) = (pad4 n, rest) := by
  simp [pad4, takeDigits, dchar_isDigit]

lemma digitsVal_pad2 (n : Nat) (h : n ≤ 99) : digitsVal (pad2 n) = n := by
  simp [pad2, digitsVal, dchar_toNat]
  omega

lemma digitsVal_pad4 (n : Nat) (h : n ≤ 9999) : digitsVal (pad4 n) = n := by
  simp [pad4, digitsVal, dchar_toNat]
  omega

lemma getNumber_pad2 (lo hi n : Nat) (rest : List Char) (h : n ≤ 99)
    (hlo : lo ≤ n) (hhi : n ≤ hi) :
    getNumber lo hi 2 (pad2 n ++ rest) = some (n, rest) := by
  unfold getNumber
  rw [takeDigits_pad2]
  dsimp only
  rw [digitsVal_pad2 n h]
  have hne : pad2 n ≠ [] := by simp [pad2]
  simp [hne, hlo, hhi]

lemma getNumber_pad4 (lo hi n : Nat) (rest : List Char) (h : n ≤ 9999)
    (hlo : lo ≤ n) (hhi : n ≤ hi) :
    getNumber lo hi 4 (pad4 n ++ rest) = some (n, rest) := by
  unfold getNumber
  rw [takeDigits_pad4]
  dsimp only
  rw [digitsVal_pad4 n h]
  have hne : pad4 n ≠ [] := by simp [pad4]
  simp [hne, hlo, hhi]

lemma strptimeModel_formatTm (tm : Tm)
    (hy1 : 0 ≤ tm.year) (hy2 : tm.year ≤ 9999)
    (hmo1 : 1 ≤ tm.month) (hmo2 : tm.month ≤ 12)
    (hd1 : 1 ≤ tm.day) (hd2 : tm.day ≤ 31)
    (hh1 : 0 ≤ tm.hour) (hh2 : tm.hour ≤ 23)
    (hmi1 : 0 ≤ tm.minute) (hmi2 : tm.minute ≤ 59)
    (hse1 : 0 ≤ tm.second) (hse2 : tm.second ≤ 61) :
    strptimeModel (formatTm tm) = some (tm, []) := by
  obtain ⟨y, mo, d, h, mi, se⟩ := tm
  simp only at hy1 hy2 hmo1 hmo2 hd1 hd2 hh1 hh2 hmi1 hmi2 hse1 hse2
  unfold strptimeModel formatTm
  dsimp only
  simp only [List.append_assoc]
  try simp only [List.cons_append]
  rw [getNumber_pad4 0 9999 y.toNat _ (by omega) (by omega) (by omega)]
  simp only [Option.bind_eq_bind, Option.some_bind, expectChar, reduceIte]
  rw [getNumber_pad2 1 12 mo.toNat _ (by omega) (by omega) (by omega)]
  simp only [Option.some_bind, expectChar, reduceIte]
  rw [getNumber_pad2 1 31 d.toNat _ (by omega) (by omega) (by omega)]
  simp only [Option.some_bind, expectChar, reduceIte]
  rw [getNumber_pad2 0 23 h.toNat _ (by omega) (by omega) (by omega)]
  simp only [Option.some_bind, expectChar, reduceIte]
  rw [getNumber_pad2 0 59 mi.toNat _ (by omega) (by omega) (by omega)]
  simp only [Option.some_bind, expectChar, reduceIte]
  rw [getNumber_pad2 0 61 se.toNat _ (by omega) (by omega) (by omega)]
  simp only [Option.some_bind, expectChar, reduceIte]
  simp only [Int.toNat_of_nonneg hy1, Int.toNat_of_nonneg hh1, Int.toNat_of_nonneg hmi1,
    Int.toNat_of_nonneg hse1, Int.toNat_of_nonneg (by omega : (0:Int) ≤ mo),
    Int.toNat_of_nonneg (by omega : (0:Int) ≤ d)]


/-- Field ranges produced by the broken-down conversion: month `1..12`,
day `1..31`, hour `0..23`, minute and second `0..59`. -/
lemma gmtimeModel_ranges (x : Int) :
    1 ≤ (gmtimeModel x).month ∧ (gmtimeModel x).month ≤ 12 ∧
      1 ≤ (gmtimeModel x).day ∧ (gmtimeModel x).day ≤ 31 ∧
      0 ≤ (gmtimeModel x).hour ∧ (gmtimeModel x).hour ≤ 23 ∧
      0 ≤ (gmtimeModel x).minute ∧ (gmtimeModel x).minute ≤ 59 ∧
      0 ≤ (gmtimeModel x).second ∧ (gmtimeModel x).second ≤ 61 := by
  obtain ⟨hm1, hm2, hd1, hd2⟩ := civilFromDays_ranges (x / 86400)
  unfold gmtimeModel
  dsimp only
  refine ⟨hm1, hm2, hd1, hd2, ?_, ?_, ?_, ?_, ?_, ?_⟩ <;> omega

/-- C1: the claim says `ToUTCString` renders the same UTC string for a
given instant under every zone configuration.  The code disagrees: it
passes the instant through `timegm(localtime_r(t))`, which shifts it by
the zone offset, so it renders the instant's local wall-clock fields with
a `Z` suffix.  At the Unix epoch instant 0, the zone `UTC` (offset 0) and
a `UTC+1` zone (offset 3600) produce different strings. -/
theorem claimC1_toUTCString_zone_dependent :
    ToUTCString 3600 0 = ("1970-01-01T01:00:00Z".toList) ∧
      ToUTCString 0 0 = ("1970-01-01T00:00:00Z".toList) ∧
      ToUTCString 3600 0 ≠ ToUTCString 0 0 := by
  refine ⟨by decide, by decide, by decide⟩

/-- C5: the parse-format round trip is the identity on instants, under
every fixed-offset zone configuration (the same zone for both calls), for
every instant whose local calendar year lies in `1000..9999` (the fixed
four-digit `YYYY` pattern).  The zone shift applied by `ToUTCString` is
exactly undone by the local-zone interpretation of `FromUTCString`. -/
theorem claimC5_roundtrip_identity (t o : Int)
    (h1 : 1000 ≤ (gmtimeModel (t + o)).year)
    (h2 : (gmtimeModel (t + o)).year ≤ 9999) :
    FromUTCString o (ToUTCString o t) = .ok t := by
  unfold ToUTCString localtimeModel
  rw [timegmModel_gmtimeModel]
  obtain ⟨hm1, hm2, hd1, hd2, hh1, hh2, hmi1, hmi2, hs1, hs2⟩ := gmtimeModel_ranges (t + o)
  unfold FromUTCString
  rw [strptimeModel_formatTm (gmtimeModel (t + o)) (by omega) h2 hm1 hm2 hd1 hd2 hh1 hh2
    hmi1 hmi2 hs1 hs2]
  dsimp only
  unfold mktimeModel
  rw [timegmModel_gmtimeModel]
  congr 1
  omega

/-- C5 witness: the round trip at 2024-01-01T00:00:00Z under a UTC+1
zone. -/
theorem claimC5_witness :
    1000 ≤ (gmtimeModel (1704067200 + 3600)).year ∧
      (gmtimeModel (1704067200 + 3600)).year ≤ 9999 ∧
      FromUTCString 3600 (ToUTCString 3600 1704067200) = .ok 1704067200 :=
  ⟨by decide, by decide, claimC5_roundtrip_identity 1704067200 3600 (by decide) (by decide)⟩

/-- C9: `FromUTCString` only checks that a prefix of the input matches the
pattern: with trailing characters after the `Z` it still succeeds, under
every zone offset, and returns the same value as for the clean string. -/
theorem claimC9_trailing_garbage_accepted (o : Int) :
    FromUTCString o ("2024-01-01T00:00:00Zxyz".toList) = .ok (1704067200 - o) ∧
      FromUTCString o ("2024-01-01T00:00:00Zxyz".toList) =
        FromUTCString o ("2024-01-01T00:00:00Z".toList) := by
  have h1 : strptimeModel ("2024-01-01T00:00:00Zxyz".toList) =
      some (⟨2024, 1, 1, 0, 0, 0⟩, ("xyz".toList)) := by decide
  have h2 : strptimeModel ("2024-01-01T00:00:00Z".toList) =
      some (⟨2024, 1, 1, 0, 0, 0⟩, []) := by decide
  have h3 : timegmModel ⟨2024, 1, 1, 0, 0, 0⟩ = 1704067200 := by decide
  unfold FromUTCString
  rw [h1, h2]
  dsimp only [mktimeModel]
  rw [h3]
  exact ⟨rfl, rfl⟩

/-- C10: the instant returned by `FromUTCString` depends on the zone: for
the fixed input 2024-01-01T00:00:00Z, a UTC zone and a UTC+1 zone yield
instants 3600 seconds apart (the fields are interpreted in the local
zone), yet the string-level round trip through `ToUTCString` reproduces
the original text under each of the two zones. -/
theorem claimC10_fromUTCString_zone_dependent :
    FromUTCString 0 ("2024-01-01T00:00:00Z".toList) = .ok 1704067200 ∧
      FromUTCString 3600 ("2024-01-01T00:00:00Z".toList) = .ok 1704063600 ∧
      1704067200 - 1704063600 = 3600 - 0 ∧
      ToUTCString 0 1704067200 = ("2024-01-01T00:00:00Z".toList) ∧
      ToUTCString 3600 1704063600 = ("2024-01-01T00:00:00Z".toList) := by
  refine ⟨by decide, by decide, by decide, by decide, by decide⟩

/-!  Structural facts about the grammar matchers, used to show that the
dispatch of `ParseDuration` routes each accepted string to its grammar.  -/

/-- Splitting off the digit prefix preserves the string. -/
lemma spanDigits_append (s : List Char) : (spanDigits s).1 ++ (spanDigits s).2 = s := by
  induction s with
  | nil => rfl
  | cons c cs ih =>
      by_cases h : c.isDigit
      · simp [spanDigits, h, ih]
      · simp [spanDigits, h]

/-- Every character of the digit prefix is a digit. -/
lemma spanDigits_digits (s : List Char) : ∀ c ∈ (spanDigits s).1, c.isDigit := by
  induction s with
  | nil => simp [spanDigits]
  | cons c cs ih =>
      by_cases h : c.isDigit
      · simp only [spanDigits, h, if_true, List.mem_cons]
        rintro x (rfl | hx)
        · exact h
        · exact ih x hx
      · simp [spanDigits, h]

/-- A nonempty digit prefix of a cons means its head is a digit. -/
lemma spanDigits_head (c : Char) (cs : List Char)
    (h : (spanDigits (c :: cs)).1 ≠ []) : c.isDigit := by
  by_cases hc : c.isDigit
  · exact hc
  · simp [spanDigits, hc] at h

/-- Characters of the recognised unit symbols. -/
def unitLetters : List Char := ['n', 'u', 'µ', 'm', 's', 'h', 'd', 'w', 'y']

/-- Spelling of each unit symbol. -/
def unitStr : DUnit → List Char
  | .ns => ['n', 's']
  | .us => ['u', 's']
  | .mus => ['µ', 's']
  | .ms => ['m', 's']
  | .s => ['s']
  | .m => ['m']
  | .h => ['h']
  | .d => ['d']
  | .w => ['w']
  | .y => ['y']

set_option maxHeartbeats 1600000 in
/-- Inversion of the unit lookup: a successful match consumed exactly the
unit's spelling. -/
lemma matchUnit_eq (r : List Char) (u : DUnit) (r2 : List Char)
    (h : matchUnit r = some (u, r2)) : r = unitStr u ++ r2 := by
  unfold matchUnit at h
  split at h <;>
    first
      | (simp only [Option.some.injEq, Prod.mk.injEq] at h
         obtain ⟨rfl, rfl⟩ := h
         simp [unitStr])
      | exact absurd h (by simp)

/-- Unit spellings are nonempty. -/
lemma unitStr_ne_nil (u : DUnit) : unitStr u ≠ [] := by
  cases u <;> decide

/-- Unit spellings use only the nine unit letters. -/
lemma unitStr_chars (u : DUnit) : ∀ c ∈ unitStr u, c ∈ unitLetters := by
  cases u <;> decide

/-- Every character of a tokenizable string is a digit or a unit letter. -/
lemma tokenizeGo_chars (fuel : Nat) :
    ∀ s ts, tokenizeGo fuel s = some ts → ∀ c ∈ s, c.isDigit ∨ c ∈ unitLetters := by
  induction fuel with
  | zero =>
      intro s ts h c hc
      cases s with
      | nil => simp at hc
      | cons a as => simp [tokenizeGo] at h
  | succ n ih =>
      intro s ts h c hc
      cases s with
      | nil => simp at hc
      | cons a as =>
          unfold tokenizeGo at h
          by_cases h1 : (spanDigits (a :: as)).1 = []
          · simp [h1] at h
          · rw [if_neg h1] at h
            cases hmu : matchUnit (spanDigits (a :: as)).2 with
            | none => rw [hmu] at h; exact absurd h (by simp)
            | some pr =>
                obtain ⟨u, r2⟩ := pr
                rw [hmu] at h
                dsimp only at h
                cases hgo : tokenizeGo n r2 with
                | none => rw [hgo] at h; exact absurd h (by simp)
                | some ts' =>
                    have hsplit := spanDigits_append (a :: as)
                    have hrest := matchUnit_eq _ _ _ hmu
                    have hc2 : c ∈ (spanDigits (a :: as)).1 ++
                        (unitStr u ++ r2) := by
                      rw [← hrest, hsplit]; exact hc
                    rcases List.mem_append.1 hc2 with hd | hur
                    · exact Or.inl (spanDigits_digits _ c hd)
                    · rcases List.mem_append.1 hur with hu | hr2
                      · exact Or.inr (unitStr_chars u c hu)
                      · exact ih r2 ts' hgo c hr2

/-- A string tokenized to a nonempty token list starts with a digit. -/
lemma tokenize_head_digit (s : List Char) (t : Nat × DUnit) (ts : List (Nat × DUnit))
    (h : tokenize s = some (t :: ts)) : ∃ c cs, s = c :: cs ∧ c.isDigit := by
  cases s with
  | nil => simp [tokenize, tokenizeGo] at h
  | cons c cs =>
      refine ⟨c, cs, rfl, ?_⟩
      unfold tokenize at h
      simp only [List.length_cons] at h
      unfold tokenizeGo at h
      by_cases h1 : (spanDigits (c :: cs)).1 = []
      · simp [h1] at h
      · exact spanDigits_head c cs h1

/-- A string tokenized to a nonempty token list contains a unit letter. -/
lemma tokenize_has_unit (s : List Char) (t : Nat × DUnit) (ts : List (Nat × DUnit))
    (h : tokenize s = some (t :: ts)) : ∃ c ∈ s, c ∈ unitLetters := by
  cases s with
  | nil => simp [tokenize, tokenizeGo] at h
  | cons c cs =>
      unfold tokenize at h
      simp only [List.length_cons] at h
      unfold tokenizeGo at h
      by_cases h1 : (spanDigits (c :: cs)).1 = []
      · simp [h1] at h
      · rw [if_neg h1] at h
        cases hmu : matchUnit (spanDigits (c :: cs)).2 with
        | none => rw [hmu] at h; exact absurd h (by simp)
        | some pr =>
            obtain ⟨u, r2⟩ := pr
            have hrest := matchUnit_eq _ _ _ hmu
            obtain ⟨a, ha⟩ : ∃ a, a ∈ unitStr u := by
              cases hu : unitStr u with
              | nil => exact absurd hu (unitStr_ne_nil u)
              | cons x xs => exact ⟨x, by simp [hu]⟩
            refine ⟨a, ?_, unitStr_chars u a ha⟩
            rw [← spanDigits_append (c :: cs), hrest]
            exact List.mem_append.2 (Or.inr (List.mem_append.2 (Or.inl ha)))

/-- A string containing the substring `-P` contains the letter `P`. -/
lemma containsDashP_memP (s : List Char) (h : containsDashP s = true) : 'P' ∈ s := by
  induction s with
  | nil => simp [containsDashP] at h
  | cons c cs ih =>
      unfold containsDashP at h
      rcases Bool.or_eq_true_iff.1 h with h1 | h2
      · have : cs.head? = some 'P' := by
          rcases Bool.and_eq_true_iff.1 h1 with ⟨-, h3⟩
          exact of_decide_eq_true h3
        cases cs with
        | nil => simp at this
        | cons a as =>
            simp only [List.head?_cons, Option.some.injEq] at this
            subst this
            exact List.mem_cons_of_mem _ (List.mem_cons_self _ _)
      · exact List.mem_cons_of_mem _ (ih h2)

/-- Characters of a string accepted by the unsigned float tail are digits
or the decimal point. -/
lemma floatTail_chars (neg : Bool) (s1 : List Char) (r : Bool × List Char × List Char)
    (h : floatTail neg s1 = some r) : ∀ c ∈ s1, c.isDigit ∨ c = '.' := by
  unfold floatTail at h
  split at h
  · next heq =>
      intro c hc
      rw [← spanDigits_append s1, heq, List.append_nil] at hc
      exact Or.inl (spanDigits_digits _ c hc)
  · next s3 heq =>
      split at h
      · next hcond =>
          intro c hc
          rw [← spanDigits_append s1, heq] at hc
          rcases List.mem_append.1 hc with h1 | h2
          · exact Or.inl (spanDigits_digits _ c h1)
          · rcases List.mem_cons.1 h2 with rfl | h3
            · exact Or.inr rfl
            · rw [← spanDigits_append s3, hcond.2, List.append_nil] at h3
              exact Or.inl (spanDigits_digits _ c h3)
      · exact absurd h (by simp)
  · exact absurd h (by simp)

/-- Characters of a string matching the float regex are digits, a minus
sign or a decimal point. -/
lemma floatParse_chars (s : List Char) (neg : Bool) (ip fp : List Char)
    (h : floatParse s = some (neg, ip, fp)) :
    ∀ c ∈ s, c.isDigit ∨ c = '-' ∨ c = '.' := by
  unfold floatParse at h
  split at h
  · next r =>
      intro c hc
      rcases List.mem_cons.1 hc with rfl | h2
      · exact Or.inr (Or.inl rfl)
      · rcases floatTail_chars true r _ h c h2 with hd | hdot
        · exact Or.inl hd
        · exact Or.inr (Or.inr hdot)
  · next =>
      intro c hc
      rcases floatTail_chars false s _ h c hc with hd | hdot
      · exact Or.inl hd
      · exact Or.inr (Or.inr hdot)

/-- Digits are not upper-case letters. -/
lemma isDigit_not_isUpper (c : Char) (h : c.isDigit = true) : c.isUpper = false := by
  simp [Char.isDigit, Char.isUpper, UInt32.le_def, BitVec.le_def] at *
  omega

/-- C2: the spec says no operation throws — every failure is returned as
an error result.  The code disagrees: three concrete inputs make a C++
standard-library conversion throw an exception that escapes
`ParseDuration`: the string consisting of a bare minus sign matches the
float regex but std::stod finds no conversion and throws
std::invalid_argument; a 20-digit token count makes std::stoll throw
std::out_of_range; a 10-digit ISO component makes std::stoi throw
std::out_of_range. -/
theorem claimC2_exceptions_escape :
    ParseDuration ("-".toList) = .thrown ("stod invalid_argument") ∧
      ParseDuration ("99999999999999999999s".toList) = .thrown ("stoll out_of_range") ∧
      ParseDuration ("P9999999999Y".toList) = .thrown ("stoi out_of_range") := by
  refine ⟨by decide, by decide, by decide⟩

/-- C4 counterexample: the claim says an upper-case unit symbol such as
`1H` is accepted and contributes like `1h`.  The code's gate regex
`(\d+(ns|us|µs|ms|s|m|h|d|w|y))+$` admits only lower-case symbols and is
compiled without icase, so `1H` falls through to the final rejection. -/
theorem claimC4_counterexample :
    ParseDuration ("1H".toList) = .err .eInvalidArgument ("invalid duration string") := by
  decide

/-- C4 amended: unit symbols are matched case-sensitively; only the nine
lower-case symbols are accepted (every accepted string consists of digits
and lower-case unit letters only, and no upper-case letter can occur in
one), so `1H`, `1S`, `1Ms` are rejected with `InvalidArgument` while their
lower-case forms parse to the corresponding constants.  The lower-casing
step inside `ParseStringDuration` is unobservable because the gate regex
already excludes upper-case input. -/
theorem claimC4_amended :
    (∀ (s : List Char) (ts : List (Nat × DUnit)), tokenize s = some ts →
      ∀ c ∈ s, c.isUpper = false) ∧
      ParseDuration ("1S".toList) = .err .eInvalidArgument ("invalid duration string") ∧
      ParseDuration ("1Ms".toList) = .err .eInvalidArgument ("invalid duration string") ∧
      ParseDuration ("1h".toList) = .ok cHours ∧
      ParseDuration ("1s".toList) = .ok cSeconds ∧
      ParseDuration ("1ms".toList) = .ok cMilliseconds := by
  refine ⟨?_, by decide, by decide, by decide, by decide, by decide⟩
  intro s ts h c hc
  rcases tokenizeGo_chars s.length s ts h c hc with hd | hu
  · exact isDigit_not_isUpper c hd
  · exact (by decide : ∀ x ∈ unitLetters, x.isUpper = false) c hu

/-- C4 amended witness: the general clause at the accepted string `1h`. -/
theorem claimC4_amended_witness :
    tokenize ("1h".toList) = some [(1, DUnit.h)] ∧
      ∀ c ∈ ("1h".toList), c.isUpper = false :=
  ⟨by decide, claimC4_amended.1 ("1h".toList) [(1, DUnit.h)] (by decide)⟩

/-- Strings accepted by the unit-token grammar are routed by
`ParseDuration` to `ParseStringDuration`. -/
lemma ParseDuration_unit_route (s : List Char) (t : Nat × DUnit) (ts : List (Nat × DUnit))
    (h : tokenize s = some (t :: ts)) :
    ParseDuration s = ParseStringDuration s := by
  obtain ⟨c, cs, rfl, hc⟩ := tokenize_head_digit s t ts h
  have hchars := tokenizeGo_chars (c :: cs).length (c :: cs) (t :: ts) h
  have hnp : 'P' ∉ c :: cs := by
    intro hmem
    rcases hchars 'P' hmem with hd | hu
    · exact absurd hd (by decide)
    · exact absurd hu (by decide)
  have hhead : ¬(c :: cs).head? = some 'P' := by
    intro he
    exact hnp (List.mem_of_mem_head? (by rw [he]; rfl))
  have hdp : containsDashP (c :: cs) = false := by
    by_contra hcon
    have ht : containsDashP (c :: cs) = true := by
      revert hcon; cases containsDashP (c :: cs) <;> simp
    exact hnp (containsDashP_memP _ ht)
  have hfp : floatParse (c :: cs) = none := by
    cases hf : floatParse (c :: cs) with
    | none => rfl
    | some r =>
        obtain ⟨neg, ip, fp⟩ := r
        obtain ⟨a, ha, hau⟩ := tokenize_has_unit _ t ts h
        rcases floatParse_chars _ neg ip fp hf a ha with hd | hdash | hdot
        · have : ∀ x ∈ unitLetters, x.isDigit = false := by decide
          rw [this a hau] at hd
          exact absurd hd (by decide)
        · subst hdash
          exact absurd hau (by decide)
        · subst hdot
          exact absurd hau (by decide)
  have hum : unitMatch (c :: cs) = true := by
    unfold unitMatch
    rw [h]
  have hcond : ¬((c :: cs).head? = some 'P' ∨ containsDashP (c :: cs) = true) := by
    rintro (he | hct)
    · exact hhead he
    · rw [hdp] at hct
      exact absurd hct (by decide)
  unfold ParseDuration
  rw [if_neg (by simp), if_neg hcond, hfp, hum]
  dsimp only
  rw [if_pos rfl]

/-- C6: every input accepted by the unit-suffixed grammar parses to the
sum of `integer × UnitTable[unit]` over its tokens (when no token
overflows std::stoll); the sum only depends on the multiset of tokens, so
reordering tokens — including duplicated units — cannot change the result;
and `1h20m1s` is exactly one hour plus twenty minutes plus one second. -/
theorem claimC6_unit_sum :
    (∀ (s : List Char) (t : Nat × DUnit) (ts : List (Nat × DUnit)),
      tokenize s = some (t :: ts) → (∀ tok ∈ t :: ts, tok.1 ≤ stollMax) →
      ParseDuration s = .ok (sumTokens (t :: ts))) ∧
      (∀ ts ts' : List (Nat × DUnit), ts.Perm ts' → sumTokens ts = sumTokens ts') ∧
      ParseDuration ("1h20m1s".toList) = .ok (cHours + 20 * cMinutes + cSeconds) ∧
      ParseDuration ("15h20m20s20ms".toList) =
        .ok (15 * cHours + 20 * cMinutes + 20 * cSeconds + 20 * cMilliseconds) := by
  refine ⟨?_, ?_, ?_, ?_⟩
  · intro s t ts h hmax
    rw [ParseDuration_unit_route s t ts h]
    unfold ParseStringDuration
    rw [h]
    dsimp only
    rw [if_pos ?_]
    rw [List.all_eq_true]
    intro tok htok
    exact decide_eq_true (hmax tok htok)
  · intro ts ts' hperm
    exact List.Perm.sum_eq (hperm.map _)
  · have h1 : ParseDuration ("1h20m1s".toList) = .ok 4801000000000 := by decide
    rw [h1]
    norm_num [cHours, cMinutes, cSeconds]
  · have h1 : ParseDuration ("15h20m20s20ms".toList) = .ok 55220020000000 := by decide
    rw [h1]
    norm_num [cHours, cMinutes, cSeconds, cMilliseconds]

/-- C6 witness: the general clauses at the input `2h1s2h` (duplicated
unit) and its token permutation. -/
theorem claimC6_witness :
    tokenize ("2h1s2h".toList) = some [(2, DUnit.h), (1, DUnit.s), (2, DUnit.h)] ∧
      ParseDuration ("2h1s2h".toList) =
        .ok (sumTokens [(2, DUnit.h), (1, DUnit.s), (2, DUnit.h)]) ∧
      sumTokens [(2, DUnit.h), (1, DUnit.s), (2, DUnit.h)] =
        sumTokens [(2, DUnit.h), (2, DUnit.h), (1, DUnit.s)] :=
  ⟨by decide,
    claimC6_unit_sum.1 ("2h1s2h".toList) (2, DUnit.h) [(1, DUnit.s), (2, DUnit.h)]
      (by decide) (by decide),
    claimC6_unit_sum.2.1 _ _ (by decide)⟩

/-- A string accepted by the outer ISO regex that starts with a minus sign
must start with `-P`. -/
lemma isoSplit_dash (s : List Char)
    (x : (Option Nat × Option Nat × Option Nat × Option Nat) ×
      (Option Nat × Option Nat × Option Nat))
    (h : isoSplit s = some x) (hd : s.head? = some '-') :
    ∃ r, s = '-' :: 'P' :: r := by
  cases s with
  | nil => simp at hd
  | cons c cs =>
      simp only [List.head?_cons, Option.some.injEq] at hd
      subst hd
      cases cs with
      | nil =>
          have he : isoSplit (['-'] : List Char) = none := by decide
          rw [he] at h
          exact absurd h (by simp)
      | cons c2 cs2 =>
          by_cases h2 : c2 = 'P'
          · exact ⟨cs2, by rw [h2]⟩
          · exfalso
            have hp : isoPeriodPart ('-' :: c2 :: cs2) =
                ((none, none, none, none), '-' :: c2 :: cs2) := by
              unfold isoPeriodPart
              split <;> simp_all
            have ht : isoTimePart ('-' :: c2 :: cs2) =
                ((none, none, none), '-' :: c2 :: cs2) := by
              unfold isoTimePart
              split <;> simp_all
            unfold isoSplit at h
            rw [hp, ht] at h
            simp at h

/-- C7: every input accepted by the standard-duration grammar (which
requires the `P`, so the string starts with `P` or `-P`) parses to the sum
of each present component times its constant — years, months, weeks, days
from the period, hours, minutes, seconds from the time — with a leading
minus sign negating the combined sum once at the outermost level (when no
component overflows std::stoi); and a bare `P` or `PT` yields zero. -/
theorem claimC7_iso_sum :
    (∀ (s : List Char) (y mo w d h mi se : Option Nat),
      isoSplit s = some ((y, mo, w, d), (h, mi, se)) →
      (s.head? = some 'P' ∨ s.head? = some '-') →
      compOverflows y = false → compOverflows mo = false → compOverflows w = false →
      compOverflows d = false → compOverflows h = false → compOverflows mi = false →
      compOverflows se = false →
      ParseDuration s = .ok ((if s.head? = some '-' then -1 else 1) *
        (compVal y cYear + compVal mo cMonth + compVal w cWeek + compVal d cDay +
          compVal h cHours + compVal mi cMinutes + compVal se cSeconds))) ∧
      ParseDuration ("P".toList) = .ok 0 ∧
      ParseDuration ("PT".toList) = .ok 0 ∧
      ParseDuration ("-P1Y".toList) = .ok (-cYear) ∧
      ParseDuration ("P1Y1M1W1DT1H1M1S".toList) =
        .ok (cYear + cMonth + cWeek + cDay + cHours + cMinutes + cSeconds) := by
  refine ⟨?_, by decide, by decide, ?_, ?_⟩
  · intro s y mo w d h mi se hiso hroute h1 h2 h3 h4 h5 h6 h7
    have hbody : ParseISO8601Duration s = .ok ((if s.head? = some '-' then -1 else 1) *
        (compVal y cYear + compVal mo cMonth + compVal w cWeek + compVal d cDay +
          compVal h cHours + compVal mi cMinutes + compVal se cSeconds)) := by
      unfold ParseISO8601Duration
      rw [hiso]
      dsimp only
      rw [if_neg (by simp [h1, h2, h3, h4, h5, h6, h7])]
      congr 1
      split_ifs <;> ring
    cases hroute with
    | inl hp =>
        have hne : s ≠ [] := by
          intro hrfl
          rw [hrfl] at hp
          simp at hp
        unfold ParseDuration
        rw [if_neg (by simp [hne]), if_pos (Or.inl hp)]
        exact hbody
    | inr hm =>
        obtain ⟨r, rfl⟩ := isoSplit_dash _ _ hiso hm
        have hdp : containsDashP ('-' :: 'P' :: r) = true := by
          simp [containsDashP]
        unfold ParseDuration
        rw [if_neg (by simp), if_pos (Or.inr hdp)]
        exact hbody
  · have h1 : ParseDuration ("-P1Y".toList) = .ok (-31536000000000000) := by decide
    rw [h1]
    norm_num [cYear, cDay, cHours, cMinutes, cSeconds]
  · have h1 : ParseDuration ("P1Y1M1W1DT1H1M1S".toList) = .ok 34822861000000000 := by decide
    rw [h1]
    norm_num [cYear, cMonth, cWeek, cDay, cHours, cMinutes, cSeconds]

/-- C7 witness: the general clause at the input `-P1Y1DT2H`. -/
theorem claimC7_witness :
    isoSplit ("-P1Y1DT2H".toList) =
        some ((some 1, none, none, some 1), (some 2, none, none)) ∧
      ParseDuration ("-P1Y1DT2H".toList) =
        .ok ((if ("-P1Y1DT2H".toList).head? = some '-' then -1 else 1) *
          (compVal (some 1) cYear + compVal none cMonth + compVal none cWeek +
            compVal (some 1) cDay + compVal (some 2) cHours + compVal none cMinutes +
            compVal none cSeconds)) :=
  ⟨by decide,
    claimC7_iso_sum.1 ("-P1Y1DT2H".toList) (some 1) none none (some 1) (some 2) none none
      (by decide) (Or.inr (by decide)) (by decide) (by decide) (by decide) (by decide)
      (by decide) (by decide) (by decide)⟩

/-- C8: the empty string fails with `Failed` (message "empty duration
string") before any grammar matching; every non-empty input matching no
grammar fails with `InvalidArgument` — both in the dispatch fallback and
in the standard-duration branch when the outer ISO regex rejects — and
each listed rejection example fails with `InvalidArgument`. -/
theorem claimC8_error_classification :
    ParseDuration ([]) = .err .eFailed ("empty duration string") ∧
      (∀ s : List Char, s ≠ [] → floatParse s = none → unitMatch s = false →
        ((s.head? = some 'P' ∨ containsDashP s = true) → isoSplit s = none) →
        ∃ msg, ParseDuration s = .err .eInvalidArgument msg) ∧
      ParseDuration ("1#".toList) = .err .eInvalidArgument ("invalid duration string") ∧
      ParseDuration ("1a".toList) = .err .eInvalidArgument ("invalid duration string") ∧
      ParseDuration ("1s1".toList) = .err .eInvalidArgument ("invalid duration string") ∧
      ParseDuration ("sss".toList) = .err .eInvalidArgument ("invalid duration string") ∧
      ParseDuration ("s111".toList) = .err .eInvalidArgument ("invalid duration string") ∧
      ParseDuration ("%12d".toList) = .err .eInvalidArgument ("invalid duration string") ∧
      ParseDuration ("y1y".toList) = .err .eInvalidArgument ("invalid duration string") ∧
      ParseDuration ("/12d".toList) = .err .eInvalidArgument ("invalid duration string") := by
  refine ⟨by decide, ?_, by decide, by decide, by decide, by decide, by decide, by decide,
    by decide, by decide⟩
  intro s hne hflt hunit hiso
  by_cases hroute : s.head? = some 'P' ∨ containsDashP s = true
  · refine ⟨("invalid ISO8601 duration format"), ?_⟩
    unfold ParseDuration
    rw [if_neg (by simp [hne]), if_pos hroute]
    unfold ParseISO8601Duration
    rw [hiso hroute]
  · refine ⟨("invalid duration string"), ?_⟩
    unfold ParseDuration
    rw [if_neg (by simp [hne]), if_neg hroute, hflt, hunit]
    dsimp only
    rw [if_neg (by simp)]

/-- C8 witness: the general clause at the non-empty unmatched input
`1a`. -/
theorem claimC8_witness :
    ("1a".toList ≠ ([] : List Char)) ∧
      (∃ msg, ParseDuration ("1a".toList) = .err .eInvalidArgument msg) :=
  ⟨by decide,
    claimC8_error_classification.2.1 ("1a".toList) (by decide) (by decide) (by decide)
      (fun hcon => absurd hcon (by decide))⟩
